import Mathlib

/-!
Verification development for the playlet repository's pipeline state store
(`MetadataCache` in the TypeScript source) and its `UploadService`.

The backing store (DynamoDB) is an external collaborator that is not part of
this repository.  Its behaviour is modelled from the spec, section 6: a
key-value document store addressed by the two-part key (userId, assetId),
supporting conditional item creation guarded by key absence and partial,
path-addressed updates to nested fields, reporting a per-request status code
(200 on success, a non-success code on conflict or rejection).  Timestamps
(`new Date().toISOString()`) are modelled by a natural-number clock reading
rendered as its decimal text form; the rendering is injective and order
reflecting at the model level, which is what the claims about `updatedAt` use.
-/

namespace Playlet

/-- DynamoDB attribute values: the tagged wire representation.  The `L` (list)
tag exists in the wire format but is never produced by this repository's
encoder; it is included so that "never a list tag" is a statable property. -/
inductive AttrValue where
  | NULL : AttrValue
  | BOOL (b : Bool) : AttrValue
  | N (s : String) : AttrValue
  | S (s : String) : AttrValue
  | M (m : List (String × AttrValue)) : AttrValue
  | L (l : List AttrValue) : AttrValue

/-- JavaScript values reachable from a parsed request body, plus `undefined`.
Numbers are modelled as integers; their `toString()` is modelled by
`Int.repr`. -/
inductive JSValue where
  | null : JSValue
  | undef : JSValue
  | bool (b : Bool) : JSValue
  | num (n : Int) : JSValue
  | str (s : String) : JSValue
  | arr (elems : List JSValue) : JSValue
  | obj (fields : List (String × JSValue)) : JSValue

/-- One item (document) in the table: a top-level attribute map. -/
abbrev Item := List (String × AttrValue)

/-- The table keyed by the composite (userId, assetId). -/
abbrev Table := List ((String × String) × Item)

/-- Association-list field read, modelling JavaScript property lookup. -/
def lookupA : List (String × AttrValue) → String → Option AttrValue
  | [], _ => none
  | (k0, v0) :: rest, k => if k = k0 then some v0 else lookupA rest k

/-- Association-list field write: replace in place when present, append when
absent — DynamoDB SET semantics on a map attribute. -/
def assocSet : List (String × AttrValue) → String → AttrValue → List (String × AttrValue)
  | [], k, v => [(k, v)]
  | (k0, v0) :: rest, k, v =>
    if k0 = k then (k, v) :: rest else (k0, v0) :: assocSet rest k v

/-- Read a (non-empty) document path inside an attribute map. -/
def getPath : List (String × AttrValue) → List String → Option AttrValue
  | _, [] => none
  | m, [k] => lookupA m k
  | m, k :: k2 :: rest =>
    match lookupA m k with
    | some (.M m2) => getPath m2 (k2 :: rest)
    | _ => none

/-- DynamoDB `SET path = value` on a document path: the final segment is
created or overwritten; every earlier segment must already exist as a map
attribute, otherwise the whole update is rejected (`none`). -/
def setPath : List (String × AttrValue) → List String → AttrValue → Option (List (String × AttrValue))
  | _, [], _ => none
  | m, [k], v => some (assocSet m k v)
  | m, k :: k2 :: rest, v =>
    match lookupA m k with
    | some (.M m2) =>
      match setPath m2 (k2 :: rest) v with
      | some m2new => some (assocSet m k (.M m2new))
      | none => none
    | _ => none

/-- Table lookup by composite key. -/
def lookupT : Table → (String × String) → Option Item
  | [], _ => none
  | (k0, it0) :: rest, k => if k = k0 then some it0 else lookupT rest k

/-- Table write by composite key (replace in place or append). -/
def tableSet : Table → (String × String) → Item → Table
  | [], k, it => [(k, it)]
  | (k0, it0) :: rest, k, it =>
    if k0 = k then (k, it) :: rest else (k0, it0) :: tableSet rest k it

/-- Read a document path of the item stored at `key`. -/
def getPathT (t : Table) (key : String × String) (p : List String) : Option AttrValue :=
  match lookupT t key with
  | some it => getPath it p
  | none => none

/-- Apply the SET actions of one UpdateItem request, left to right; the whole
request fails (and nothing is written) if any action fails. -/
def applyActions : Item → List (List String × AttrValue) → Option Item
  | it, [] => some it
  | it, (p, v) :: rest =>
    match setPath it p v with
    | some it2 => applyActions it2 rest
    | none => none

/-- Modelled from the spec: one UpdateItem round trip against the backing
store (section 6).  The store reports status 200 on success; a missing item or
an invalid document path is reported as a non-success status and leaves the
table unchanged (the request is atomic). -/
def updateItem (t : Table) (key : String × String) (acts : List (List String × AttrValue)) :
    Table × Nat :=
  match lookupT t key with
  | none => (t, 400)
  | some it =>
    match applyActions it acts with
    | none => (t, 400)
    | some it2 => (tableSet t key it2, 200)

/-- Modelled from the spec: one conditional PutItem round trip guarded by
`attribute_not_exists(userId) AND attribute_not_exists(assetId)` — i.e. key
absence.  A conflict is reported as a non-success status (spec sections 6
and 7) and leaves the existing record untouched. -/
def putItemIfAbsent (t : Table) (key : String × String) (item : Item) : Table × Nat :=
  match lookupT t key with
  | some _ => (t, 400)
  | none => ((key, item) :: t, 200)

/-- Model of `new Date().toISOString()`: the clock reading rendered as text. -/
def isoStr (now : Nat) : String := Nat.repr now

/-! ## The attribute encoder (`MetadataCache.convertToMapAttribute`)

The source function iterates `Object.entries(data)` and tags each field value:
`null`/`undefined`/the literal string "N/A" become `{NULL: true}`, booleans
`{BOOL: v}`, numbers `{N: v.toString()}`, objects (including arrays, whose
entries are their index-keyed elements) recurse into `{M: ...}`, everything
else becomes `{S: v.toString()}`.  The recursive call only ever receives a
non-null object, where `Object.entries` is total, so the per-value encoding is
a total function; `Object.entries` at the TOP level throws a TypeError on
`null`/`undefined`, which the top-level wrapper models as `none`. -/

mutual

/-- Encoding of one field value (the body of the `forEach` in the source). -/
def convertValue : JSValue → AttrValue
  | .null => .NULL
  | .undef => .NULL
  | .str s => if s = "N/A" then .NULL else .S s
  | .bool b => .BOOL b
  | .num n => .N (Int.repr n)
  | .obj fs => .M (convertEntries fs)
  | .arr es => .M (convertArr 0 es)

/-- Encoding of the entry list of an object. -/
def convertEntries : List (String × JSValue) → List (String × AttrValue)
  | [] => []
  | (k, v) :: rest => (k, convertValue v) :: convertEntries rest

/-- Encoding of the entry list of an array: `Object.entries` on an array
yields its elements keyed by their decimal index strings. -/
def convertArr : Nat → List JSValue → List (String × AttrValue)
  | _, [] => []
  | i, v :: rest => (Nat.repr i, convertValue v) :: convertArr (i + 1) rest

end

/-- `Object.entries` on a primitive string yields its characters keyed by
their decimal index strings. -/
def strElems (s : String) : List JSValue :=
  s.toList.map (fun c => JSValue.str (String.mk [c]))

/-- Top-level `convertToMapAttribute(data)`: `Object.entries(data)` throws a
TypeError on `null`/`undefined` (modelled `none`); on an object it yields the
fields, on an array the index-keyed elements, on a number or boolean no own
enumerable properties, on a string its index-keyed characters. -/
def convertToMapAttribute : JSValue → Option (List (String × AttrValue))
  | .null => none
  | .undef => none
  | .obj fs => some (convertEntries fs)
  | .arr es => some (convertArr 0 es)
  | .num _ => some []
  | .bool _ => some []
  | .str s => some (convertArr 0 (strElems s))

/-! ## Path registry and commands -/

/-- The five metadata categories (string enum `MetadataPath` in the source). -/
inductive MetadataPath where
  | VALIDATION_BASIC | VALIDATION_STREAM
  | METADATA_TECHNICAL | METADATA_QUALITY | METADATA_CONTENT
  deriving DecidableEq

/-- The runtime string value of each `MetadataPath` enum member. -/
def pathValue : MetadataPath → String
  | .VALIDATION_BASIC => "validation.basic"
  | .VALIDATION_STREAM => "validation.stream"
  | .METADATA_TECHNICAL => "metadata.technical"
  | .METADATA_QUALITY => "metadata.quality"
  | .METADATA_CONTENT => "metadata.content"

/-- The `UPDATE_PATHS` registry, keyed by the enum's string values as the
source object is; any other string has no entry (`undefined`). -/
def UPDATE_PATHS (c : String) : Option (List String) :=
  if c = "validation.basic" then some ["metadata", "validation", "basic"]
  else if c = "validation.stream" then some ["metadata", "validation", "stream"]
  else if c = "metadata.technical" then some ["metadata", "technical"]
  else if c = "metadata.quality" then some ["metadata", "quality"]
  else if c = "metadata.content" then some ["metadata", "content"]
  else none

/-- The resolved path of each defined category. -/
def resolvePath : MetadataPath → List String
  | .VALIDATION_BASIC => ["metadata", "validation", "basic"]
  | .VALIDATION_STREAM => ["metadata", "validation", "stream"]
  | .METADATA_TECHNICAL => ["metadata", "technical"]
  | .METADATA_QUALITY => ["metadata", "quality"]
  | .METADATA_CONTENT => ["metadata", "content"]

/-- Semantic content of the source's `UpdateCommandParams`: the expression
`SET #p1.#p2... = :data` with its attribute names and value substituted. -/
structure UpdateCommandParams where
  pathParts : List String
  value : AttrValue

/-- `createUpdateCommand` over a raw category string.  An unknown category
leaves `pathParts` `undefined` and the subsequent `.reduce` throws a TypeError
before any request is built (modelled `none`); a top-level-null `data` makes
the encoder throw, likewise before any request. -/
def createUpdateCommandRaw (c : String) (data : JSValue) : Option UpdateCommandParams :=
  match UPDATE_PATHS c with
  | none => none
  | some parts =>
    match convertToMapAttribute data with
    | none => none
    | some m => some ⟨parts, .M m⟩

/-- The seven pipeline stages (string enum `ProcessingStage` in the source). -/
inductive ProcessingStage where
  | UPLOAD | VALIDATION | METADATA | GOP_CREATION
  | TRANSCODING | COMPLETION | DISTRIBUTION
  deriving DecidableEq

/-- The runtime string value of each `ProcessingStage` enum member. -/
def stageValue : ProcessingStage → String
  | .UPLOAD => "upload"
  | .VALIDATION => "validation"
  | .METADATA => "metadata"
  | .GOP_CREATION => "gopCreation"
  | .TRANSCODING => "transcoding"
  | .COMPLETION => "completion"
  | .DISTRIBUTION => "distribution"

/-! ## The four public operations of `MetadataCache` -/

/-- The fresh item built by `InitializeRecord`: five empty metadata leaves,
seven stage flags and `hasCriticalFailure` all false, `createdAt` and
`progress.updatedAt` at the current clock reading (the two `new Date()` calls
inside one request construction are modelled at the same reading). -/
def initialItem (userId assetId : String) (now : Nat) : Item :=
  [ ("userId", .S userId),
    ("assetId", .S assetId),
    ("createdAt", .S (isoStr now)),
    ("metadata", .M
      [ ("validation", .M [("basic", .M []), ("stream", .M [])]),
        ("technical", .M []),
        ("quality", .M []),
        ("content", .M []) ]),
    ("progress", .M
      [ ("upload", .BOOL false),
        ("validation", .BOOL false),
        ("metadata", .BOOL false),
        ("gopCreation", .BOOL false),
        ("transcoding", .BOOL false),
        ("completion", .BOOL false),
        ("distribution", .BOOL false),
        ("updatedAt", .S (isoStr now)),
        ("hasCriticalFailure", .BOOL false) ]) ]

/-- `InitializeRecord`: one conditional PutItem; the result is
`httpStatusCode === 200`. -/
def InitializeRecord (t : Table) (userId assetId : String) (now : Nat) : Table × Bool :=
  ((putItemIfAbsent t (userId, assetId) (initialItem userId assetId now)).1,
   (putItemIfAbsent t (userId, assetId) (initialItem userId assetId now)).2 == 200)

/-- `updateMetadata`: builds the update command (which can throw before any
request: unknown category or encoder TypeError, modelled `none`), then issues
one UpdateItem; the result is `httpStatusCode === 200`. -/
def updateMetadataRaw (t : Table) (key : String × String) (c : String) (data : JSValue) :
    Option (Table × Bool) :=
  match createUpdateCommandRaw c data with
  | none => none
  | some cmd =>
    some ((updateItem t key [(cmd.pathParts, cmd.value)]).1,
          (updateItem t key [(cmd.pathParts, cmd.value)]).2 == 200)

/-- `updateMetadata` with the typed enum, as the TypeScript signature has. -/
def updateMetadata (t : Table) (key : String × String) (path : MetadataPath) (data : JSValue) :
    Option (Table × Bool) :=
  updateMetadataRaw t key (pathValue path) data

/-- `updateProgress` over a raw stage string: the stage goes straight into
`ExpressionAttributeNames` with no validation, so the request
`SET progress.#stage = :value, progress.updatedAt = :time` is always issued. -/
def updateProgressRaw (t : Table) (key : String × String) (stage : String) (value : Bool)
    (now : Nat) : Table × Bool :=
  ((updateItem t key
    [ (["progress", stage], .BOOL value),
      (["progress", "updatedAt"], .S (isoStr now)) ]).1,
   (updateItem t key
    [ (["progress", stage], .BOOL value),
      (["progress", "updatedAt"], .S (isoStr now)) ]).2 == 200)

/-- `updateProgress` with the typed enum, as the TypeScript signature has. -/
def updateProgress (t : Table) (key : String × String) (stage : ProcessingStage) (value : Bool)
    (now : Nat) : Table × Bool :=
  updateProgressRaw t key (stageValue stage) value now

/-- `markCriticalFailure`: one UpdateItem with
`SET progress.hasCriticalFailure = :value, progress.updatedAt = :time`. -/
def markCriticalFailure (t : Table) (key : String × String) (value : Bool) (now : Nat) :
    Table × Bool :=
  ((updateItem t key
    [ (["progress", "hasCriticalFailure"], .BOOL value),
      (["progress", "updatedAt"], .S (isoStr now)) ]).1,
   (updateItem t key
    [ (["progress", "hasCriticalFailure"], .BOOL value),
      (["progress", "updatedAt"], .S (isoStr now)) ]).2 == 200)

/-! ## Core lemmas about the document model -/

theorem lookupA_assocSet (m : List (String × AttrValue)) (k : String) (v : AttrValue)
    (k' : String) :
    lookupA (assocSet m k v) k' = if k' = k then some v else lookupA m k' := by
  induction m with
  | nil =>
    simp only [assocSet, lookupA]
  | cons hd tl ih =>
    obtain ⟨k0, v0⟩ := hd
    by_cases h0 : k0 = k
    · subst h0
      by_cases h1 : k' = k0 <;> simp [assocSet, lookupA, h1]
    · by_cases h1 : k' = k0
      · have hk : ¬ k' = k := by rw [h1]; exact h0
        simp [assocSet, lookupA, h0, h1, hk]
      · simp [assocSet, lookupA, h0, h1, ih]

theorem getPath_setPath_self (p : List String) :
    ∀ (m m' : List (String × AttrValue)) (v : AttrValue),
      setPath m p v = some m' → getPath m' p = some v := by
  induction p with
  | nil => intro m m' v h; simp [setPath] at h
  | cons k rest ih =>
    intro m m' v h
    cases rest with
    | nil =>
      simp only [setPath] at h
      cases h
      simp [getPath, lookupA_assocSet]
    | cons k2 rest2 =>
      simp only [setPath] at h
      split at h
      next m2 hm =>
        split at h
        next m2new hs =>
          cases h
          simp only [getPath, lookupA_assocSet, if_pos rfl]
          exact ih m2 m2new v hs
        next => simp at h
      next => simp at h

/-- Two document paths diverge when they disagree at some common index. -/
def Diverge (p q : List String) : Prop :=
  ∃ pr ∈ List.zip p q, pr.1 ≠ pr.2

instance (p q : List String) : Decidable (Diverge p q) := by
  unfold Diverge; infer_instance

/-- Setting one path leaves every diverging path unchanged. -/
theorem getPath_setPath_frame (p : List String) :
    ∀ (q : List String) (m m' : List (String × AttrValue)) (v : AttrValue),
      setPath m p v = some m' → Diverge p q → getPath m' q = getPath m q := by
  induction p with
  | nil => intro q m m' v h _; simp [setPath] at h
  | cons k rest ih =>
    intro q m m' v h hd
    cases q with
    | nil => obtain ⟨pr, hpr, _⟩ := hd; simp [List.zip] at hpr
    | cons b q' =>
      by_cases hkb : k = b
      · subst hkb
        obtain ⟨pr, hpr, hne⟩ := hd
        simp only [List.zip_cons_cons, List.mem_cons] at hpr
        rcases hpr with hpr | hpr
        · subst hpr; exact absurd rfl hne
        · -- divergence is in the tails, so both tails are non-empty
          cases rest with
          | nil => simp [List.zip] at hpr
          | cons k2 rest2 =>
            cases q' with
            | nil => simp [List.zip] at hpr
            | cons c q'' =>
              simp only [setPath] at h
              split at h
              next m2 hm =>
                split at h
                next m2new hs =>
                  cases h
                  have hfr := ih (c :: q'') m2 m2new v hs ⟨pr, hpr, hne⟩
                  simp only [getPath, lookupA_assocSet, if_pos rfl, hm]
                  exact hfr
                next => simp at h
              next => simp at h
      · -- heads differ: the entry at `b` is untouched
        have hlf : ∀ mm : List (String × AttrValue), ∀ vv,
            lookupA (assocSet mm k vv) b = lookupA mm b := by
          intro mm vv
          rw [lookupA_assocSet]
          have : ¬ b = k := fun hh => hkb hh.symm
          simp [this]
        cases rest with
        | nil =>
          simp only [setPath] at h
          cases h
          cases q' with
          | nil => simp [getPath, hlf]
          | cons c q'' => simp only [getPath, hlf]
        | cons k2 rest2 =>
          simp only [setPath] at h
          split at h
          next m2 hm =>
            split at h
            next m2new hs =>
              cases h
              cases q' with
              | nil => simp [getPath, hlf]
              | cons c q'' => simp only [getPath, hlf]
            next => simp at h
          next => simp at h

theorem lookupT_tableSet (t : Table) (k : String × String) (it : Item) (k' : String × String) :
    lookupT (tableSet t k it) k' = if k' = k then some it else lookupT t k' := by
  induction t with
  | nil => simp only [tableSet, lookupT]
  | cons hd tl ih =>
    obtain ⟨k0, it0⟩ := hd
    by_cases h0 : k0 = k
    · subst h0
      by_cases h1 : k' = k0 <;> simp [tableSet, lookupT, h1]
    · by_cases h1 : k' = k0
      · have hk : ¬ k' = k := by rw [h1]; exact h0
        simp [tableSet, lookupT, h0, h1, hk]
      · simp [tableSet, lookupT, h0, h1, ih]

/-- Successful UpdateItem: extract the stored item and the applied result. -/
theorem updateItem_success (t : Table) (key : String × String)
    (acts : List (List String × AttrValue)) (t' : Table) :
    updateItem t key acts = (t', 200) →
    ∃ it it2, lookupT t key = some it ∧ applyActions it acts = some it2 ∧
      t' = tableSet t key it2 := by
  intro h
  unfold updateItem at h
  split at h
  next => simp at h
  next it hl =>
    split at h
    next => simp at h
    next it2 ha => exact ⟨it, it2, hl, ha, by cases h; rfl⟩

theorem applyActions_two (it : Item) (p1 p2 : List String) (v1 v2 : AttrValue) (it2 : Item) :
    applyActions it [(p1, v1), (p2, v2)] = some it2 →
    ∃ it1, setPath it p1 v1 = some it1 ∧ setPath it1 p2 v2 = some it2 := by
  intro h
  simp only [applyActions] at h
  split at h
  next it1 h1 =>
    split at h
    next it3 h2 =>
      cases h
      exact ⟨it1, h1, h2⟩
    next => simp at h
  next => simp at h

theorem applyActions_one (it : Item) (p1 : List String) (v1 : AttrValue) (it1 : Item) :
    applyActions it [(p1, v1)] = some it1 → setPath it p1 v1 = some it1 := by
  intro h
  simp only [applyActions] at h
  split at h
  next itb h1 =>
    cases h
    exact h1
  next => simp at h

/-- Successful two-action UpdateItem: extract the item-level writes. -/
theorem updateItem_two_success (t : Table) (key : String × String)
    (p1 p2 : List String) (v1 v2 : AttrValue) (t' : Table) :
    updateItem t key [(p1, v1), (p2, v2)] = (t', 200) →
    ∃ it it1 it2, lookupT t key = some it ∧
      setPath it p1 v1 = some it1 ∧ setPath it1 p2 v2 = some it2 ∧
      t' = tableSet t key it2 := by
  intro h
  obtain ⟨it, it2, hl, ha, ht⟩ := updateItem_success t key _ t' h
  obtain ⟨it1, h1, h2⟩ := applyActions_two it p1 p2 v1 v2 it2 ha
  exact ⟨it, it1, it2, hl, h1, h2, ht⟩

/-- Successful one-action UpdateItem: extract the item-level write. -/
theorem updateItem_one_success (t : Table) (key : String × String)
    (p1 : List String) (v1 : AttrValue) (t' : Table) :
    updateItem t key [(p1, v1)] = (t', 200) →
    ∃ it it1, lookupT t key = some it ∧ setPath it p1 v1 = some it1 ∧
      t' = tableSet t key it1 := by
  intro h
  obtain ⟨it, it1, hl, ha, ht⟩ := updateItem_success t key _ t' h
  exact ⟨it, it1, hl, applyActions_one it p1 v1 it1 ha, ht⟩

/-- A failing UpdateItem leaves the table unchanged. -/
theorem updateItem_fst_eq_or (t : Table) (key : String × String)
    (acts : List (List String × AttrValue)) :
    (updateItem t key acts).2 = 200 ∨ (updateItem t key acts).1 = t := by
  unfold updateItem
  cases hl : lookupT t key with
  | none => right; rfl
  | some it =>
    cases ha : applyActions it acts with
    | none => right; simp [ha]
    | some it2 => left; simp [ha]

/-! ## Facts about the enum string values -/

theorem stageValue_ne_updatedAt (s : ProcessingStage) : stageValue s ≠ "updatedAt" := by
  cases s <;> decide

theorem stageValue_ne_hcf (s : ProcessingStage) : stageValue s ≠ "hasCriticalFailure" := by
  cases s <;> decide

theorem stageValue_inj (s s' : ProcessingStage) (h : stageValue s = stageValue s') : s = s' := by
  cases s <;> cases s' <;> (try rfl) <;> exact absurd h (by decide)

/-! ## Effects of a two-action progress write -/

/-- A successful `SET progress.x = av, progress.updatedAt = tv` request sets
exactly those two nested fields and leaves every other progress field, the
whole `metadata` attribute and `createdAt` unchanged. -/
theorem progress_update_effects (t : Table) (key : String × String) (x : String)
    (av tv : AttrValue) (t' : Table)
    (hx : x ≠ "updatedAt")
    (h : updateItem t key
      [(["progress", x], av), (["progress", "updatedAt"], tv)] = (t', 200)) :
    getPathT t' key ["progress", "updatedAt"] = some tv ∧
    getPathT t' key ["progress", x] = some av ∧
    (∀ y : String, y ≠ x → y ≠ "updatedAt" →
      getPathT t' key ["progress", y] = getPathT t key ["progress", y]) ∧
    getPathT t' key ["metadata"] = getPathT t key ["metadata"] ∧
    getPathT t' key ["createdAt"] = getPathT t key ["createdAt"] := by
  obtain ⟨it, it1, it2, hl, h1, h2, ht⟩ :=
    updateItem_two_success t key _ _ _ _ t' h
  have hT' : ∀ p, getPathT t' key p = getPath it2 p := by
    intro p
    simp [getPathT, ht, lookupT_tableSet]
  have hT : ∀ p, getPathT t key p = getPath it p := by
    intro p
    simp [getPathT, hl]
  have hd2x : Diverge ["progress", "updatedAt"] ["progress", x] :=
    ⟨("updatedAt", x), by simp [List.zip], fun hh => hx hh.symm⟩
  refine ⟨?_, ?_, ?_, ?_, ?_⟩
  · rw [hT']
    exact getPath_setPath_self _ _ _ _ h2
  · rw [hT']
    rw [getPath_setPath_frame _ _ _ _ _ h2 hd2x]
    exact getPath_setPath_self _ _ _ _ h1
  · intro y hyx hyu
    have hd1 : Diverge ["progress", x] ["progress", y] :=
      ⟨(x, y), by simp [List.zip], fun hh => hyx hh.symm⟩
    have hd2 : Diverge ["progress", "updatedAt"] ["progress", y] :=
      ⟨("updatedAt", y), by simp [List.zip], fun hh => hyu hh.symm⟩
    rw [hT', hT]
    rw [getPath_setPath_frame _ _ _ _ _ h2 hd2]
    exact getPath_setPath_frame _ _ _ _ _ h1 hd1
  · have hd1 : Diverge ["progress", x] ["metadata"] :=
      ⟨("progress", "metadata"), by simp [List.zip], by decide⟩
    have hd2 : Diverge ["progress", "updatedAt"] ["metadata"] :=
      ⟨("progress", "metadata"), by simp [List.zip], by decide⟩
    rw [hT', hT]
    rw [getPath_setPath_frame _ _ _ _ _ h2 hd2]
    exact getPath_setPath_frame _ _ _ _ _ h1 hd1
  · have hd1 : Diverge ["progress", x] ["createdAt"] :=
      ⟨("progress", "createdAt"), by simp [List.zip], by decide⟩
    have hd2 : Diverge ["progress", "updatedAt"] ["createdAt"] :=
      ⟨("progress", "createdAt"), by simp [List.zip], by decide⟩
    rw [hT', hT]
    rw [getPath_setPath_frame _ _ _ _ _ h2 hd2]
    exact getPath_setPath_frame _ _ _ _ _ h1 hd1

/-- From the boolean result of an operation back to the backend status. -/
theorem op_success_elim (t : Table) (key : String × String)
    (acts : List (List String × AttrValue)) (t' : Table)
    (h : ((updateItem t key acts).1, (updateItem t key acts).2 == 200) = (t', true)) :
    updateItem t key acts = (t', 200) := by
  have h1 : (updateItem t key acts).1 = t' := congrArg Prod.fst h
  have h2 : ((updateItem t key acts).2 == 200) = true := congrArg Prod.snd h
  have h2' : (updateItem t key acts).2 = 200 := by
    have := h2
    simp only [beq_iff_eq] at this
    exact this
  rw [← h1, ← h2']

/-! ## C1: conflicting second InitializeRecord -/

/-- C1: for every (ownerId, assetId) pair for which a record already exists, a
second call to `InitializeRecord` reports `false` (a soft result, not a thrown
error — the operation is a total function in this model, per the spec's
section 6 contract for the backing store), and the table after the second call
is exactly the table after the first call alone: the existing record is
unmodified. -/
theorem init_conflict_reports_false (t : Table) (u a : String) (n1 n2 : Nat) (t1 : Table) :
    InitializeRecord t u a n1 = (t1, true) →
    InitializeRecord t1 u a n2 = (t1, false) := by
  intro h
  unfold InitializeRecord putItemIfAbsent at h
  split at h
  next => simp at h
  next hl =>
    simp only [Prod.mk.injEq] at h
    obtain ⟨h1, _⟩ := h
    subst h1
    simp [InitializeRecord, putItemIfAbsent, lookupT]

/-- Witness for C1 at a concrete run: a record is created once, and the second
call returns `false` leaving the table as it was after the first call. -/
theorem init_conflict_reports_false_check :
    InitializeRecord ((InitializeRecord [] "u" "a" 0).1) "u" "a" 1 =
      ((InitializeRecord [] "u" "a" 0).1, false) :=
  init_conflict_reports_false [] "u" "a" 0 1 (InitializeRecord [] "u" "a" 0).1 rfl

/-! ## C8: a fresh record's initial contents -/

/-- C8: for every (ownerId, assetId) with no existing record, a successful
`InitializeRecord` creates a record whose five metadata leaves are all empty
maps, whose seven stage flags and `hasCriticalFailure` are all false, and
whose `createdAt` is the current clock reading. -/
theorem init_creates_fresh_record (t : Table) (u a : String) (n : Nat)
    (h : lookupT t (u, a) = none) :
    InitializeRecord t u a n = (((u, a), initialItem u a n) :: t, true) ∧
    (∀ c : MetadataPath, getPath (initialItem u a n) (resolvePath c) = some (.M [])) ∧
    (∀ s : ProcessingStage,
      getPath (initialItem u a n) ["progress", stageValue s] = some (.BOOL false)) ∧
    getPath (initialItem u a n) ["progress", "hasCriticalFailure"] = some (.BOOL false) ∧
    getPath (initialItem u a n) ["createdAt"] = some (.S (isoStr n)) := by
  refine ⟨?_, ?_, ?_, ?_, ?_⟩
  · simp [InitializeRecord, putItemIfAbsent, h]
  · intro c; cases c <;> rfl
  · intro s; cases s <;> rfl
  · rfl
  · rfl

/-- Witness for C8 at a concrete run on the empty table. -/
theorem init_creates_fresh_record_check :
    lookupT ([] : Table) ("u", "a") = none ∧
    ( InitializeRecord [] "u" "a" 0 = (((("u" : String), ("a" : String)), initialItem "u" "a" 0) :: [], true) ∧
      (∀ c : MetadataPath, getPath (initialItem "u" "a" 0) (resolvePath c) = some (.M [])) ∧
      (∀ s : ProcessingStage,
        getPath (initialItem "u" "a" 0) ["progress", stageValue s] = some (.BOOL false)) ∧
      getPath (initialItem "u" "a" 0) ["progress", "hasCriticalFailure"] = some (.BOOL false) ∧
      getPath (initialItem "u" "a" 0) ["createdAt"] = some (.S (isoStr 0)) ) :=
  ⟨rfl, init_creates_fresh_record [] "u" "a" 0 rfl⟩

/-! ## C6: updateProgress sets exactly the named stage flag and updatedAt -/

/-- C6: for every valid stage among the seven enumerated pipeline stages and
every boolean value, a successful `updateProgress` sets exactly that stage's
flag to the given value and refreshes `progress.updatedAt` to the current
clock reading — both inside the one UpdateItem request the operation issues
(the model applies that single request atomically) — while every other stage
flag, `hasCriticalFailure`, and the whole `metadata` attribute are
unchanged. -/
theorem updateProgress_sets_stage_and_time (t : Table) (key : String × String)
    (s : ProcessingStage) (v : Bool) (now : Nat) (t' : Table)
    (h : updateProgress t key s v now = (t', true)) :
    getPathT t' key ["progress", stageValue s] = some (.BOOL v) ∧
    getPathT t' key ["progress", "updatedAt"] = some (.S (isoStr now)) ∧
    (∀ s' : ProcessingStage, s' ≠ s →
      getPathT t' key ["progress", stageValue s'] =
        getPathT t key ["progress", stageValue s']) ∧
    getPathT t' key ["progress", "hasCriticalFailure"] =
      getPathT t key ["progress", "hasCriticalFailure"] ∧
    getPathT t' key ["metadata"] = getPathT t key ["metadata"] := by
  unfold updateProgress updateProgressRaw at h
  have h200 := op_success_elim t key _ t' h
  obtain ⟨ha, hb, hc, hd, _⟩ :=
    progress_update_effects t key (stageValue s) (.BOOL v) (.S (isoStr now)) t'
      (stageValue_ne_updatedAt s) h200
  refine ⟨hb, ha, ?_, ?_, hd⟩
  · intro s' hne
    exact hc (stageValue s') (fun hv => hne (stageValue_inj s' s hv))
      (stageValue_ne_updatedAt s')
  · exact hc "hasCriticalFailure" (fun hv => stageValue_ne_hcf s hv.symm) (by decide)

/-- Witness for C6: on a freshly created record, setting the transcoding flag
at clock reading 1. -/
theorem updateProgress_sets_stage_and_time_check :
    updateProgress ((InitializeRecord [] "u" "a" 0).1) ("u", "a") .TRANSCODING true 1 =
      ((updateProgress ((InitializeRecord [] "u" "a" 0).1) ("u", "a") .TRANSCODING true 1).1,
        true) ∧
    ( getPathT (updateProgress ((InitializeRecord [] "u" "a" 0).1) ("u", "a")
        .TRANSCODING true 1).1 ("u", "a") ["progress", stageValue .TRANSCODING] =
        some (.BOOL true) ∧
      getPathT (updateProgress ((InitializeRecord [] "u" "a" 0).1) ("u", "a")
        .TRANSCODING true 1).1 ("u", "a") ["progress", "updatedAt"] =
        some (.S (isoStr 1)) ∧
      (∀ s' : ProcessingStage, s' ≠ .TRANSCODING →
        getPathT (updateProgress ((InitializeRecord [] "u" "a" 0).1) ("u", "a")
          .TRANSCODING true 1).1 ("u", "a") ["progress", stageValue s'] =
          getPathT ((InitializeRecord [] "u" "a" 0).1) ("u", "a")
            ["progress", stageValue s']) ∧
      getPathT (updateProgress ((InitializeRecord [] "u" "a" 0).1) ("u", "a")
        .TRANSCODING true 1).1 ("u", "a") ["progress", "hasCriticalFailure"] =
        getPathT ((InitializeRecord [] "u" "a" 0).1) ("u", "a")
          ["progress", "hasCriticalFailure"] ∧
      getPathT (updateProgress ((InitializeRecord [] "u" "a" 0).1) ("u", "a")
        .TRANSCODING true 1).1 ("u", "a") ["metadata"] =
        getPathT ((InitializeRecord [] "u" "a" 0).1) ("u", "a") ["metadata"] ) :=
  ⟨rfl,
   updateProgress_sets_stage_and_time ((InitializeRecord [] "u" "a" 0).1) ("u", "a")
     .TRANSCODING true 1
     (updateProgress ((InitializeRecord [] "u" "a" 0).1) ("u", "a") .TRANSCODING true 1).1
     rfl⟩

/-! ## C2: metadata category isolation -/

theorem UPDATE_PATHS_pathValue (c : MetadataPath) :
    UPDATE_PATHS (pathValue c) = some (resolvePath c) := by
  cases c <;> rfl

theorem resolve_diverge (c c' : MetadataPath) (h : c ≠ c') :
    Diverge (resolvePath c) (resolvePath c') := by
  cases c <;> cases c' <;> first
    | exact absurd rfl h
    | decide

theorem resolve_diverge_progress (c : MetadataPath) :
    Diverge (resolvePath c) ["progress"] := by
  cases c <;> decide

/-- A successful `updateMetadata` comes from a successfully encoded value and
one successful single-action UpdateItem on the resolved path. -/
theorem updateMetadata_success_elim (t : Table) (key : String × String)
    (c : MetadataPath) (d : JSValue) (t1 : Table)
    (h : updateMetadata t key c d = some (t1, true)) :
    ∃ m, convertToMapAttribute d = some m ∧
      updateItem t key [(resolvePath c, .M m)] = (t1, 200) := by
  cases hm : convertToMapAttribute d with
  | none =>
    have hcmd : createUpdateCommandRaw (pathValue c) d = none := by
      simp [createUpdateCommandRaw, UPDATE_PATHS_pathValue, hm]
    simp [updateMetadata, updateMetadataRaw, hcmd] at h
  | some m =>
    have hcmd : createUpdateCommandRaw (pathValue c) d = some ⟨resolvePath c, .M m⟩ := by
      simp [createUpdateCommandRaw, UPDATE_PATHS_pathValue, hm]
    simp only [updateMetadata, updateMetadataRaw, hcmd, Option.some.injEq] at h
    exact ⟨m, rfl, op_success_elim t key _ t1 h⟩

/-- C2: for every record and every pair of distinct metadata categories,
writing category `c1` then category `c2` leaves both written leaves present:
each call modified only the nested field at its resolved path — the first
write is still intact after the second, the `progress` attribute is unchanged
by either call, and every category leaf other than the two written ones is
unchanged. -/
theorem updateMetadata_category_isolation (t : Table) (key : String × String)
    (c1 c2 : MetadataPath) (d1 d2 : JSValue) (t1 t2 : Table)
    (hne : c1 ≠ c2)
    (h1 : updateMetadata t key c1 d1 = some (t1, true))
    (h2 : updateMetadata t1 key c2 d2 = some (t2, true)) :
    (∃ m1, convertToMapAttribute d1 = some m1 ∧
      getPathT t2 key (resolvePath c1) = some (.M m1)) ∧
    (∃ m2, convertToMapAttribute d2 = some m2 ∧
      getPathT t2 key (resolvePath c2) = some (.M m2)) ∧
    getPathT t1 key ["progress"] = getPathT t key ["progress"] ∧
    getPathT t2 key ["progress"] = getPathT t key ["progress"] ∧
    (∀ c : MetadataPath, c ≠ c1 → c ≠ c2 →
      getPathT t2 key (resolvePath c) = getPathT t key (resolvePath c)) := by
  obtain ⟨m1, hm1, hu1⟩ := updateMetadata_success_elim t key c1 d1 t1 h1
  obtain ⟨m2, hm2, hu2⟩ := updateMetadata_success_elim t1 key c2 d2 t2 h2
  obtain ⟨it, it1, hl, hs1, ht1⟩ := updateItem_one_success t key _ _ t1 hu1
  obtain ⟨itx, it2, hlx, hs2, ht2⟩ := updateItem_one_success t1 key _ _ t2 hu2
  have hl1 : lookupT t1 key = some it1 := by
    simp [ht1, lookupT_tableSet]
  have hxeq : itx = it1 := by
    rw [hl1] at hlx
    exact (Option.some.inj hlx).symm
  rw [hxeq] at hs2
  have hG : ∀ p, getPathT t key p = getPath it p := by
    intro p; simp [getPathT, hl]
  have hG1 : ∀ p, getPathT t1 key p = getPath it1 p := by
    intro p; simp [getPathT, hl1]
  have hG2 : ∀ p, getPathT t2 key p = getPath it2 p := by
    intro p; simp [getPathT, ht2, lookupT_tableSet]
  refine ⟨⟨m1, hm1, ?_⟩, ⟨m2, hm2, ?_⟩, ?_, ?_, ?_⟩
  · rw [hG2]
    rw [getPath_setPath_frame _ _ _ _ _ hs2 (resolve_diverge c2 c1 (Ne.symm hne))]
    exact getPath_setPath_self _ _ _ _ hs1
  · rw [hG2]
    exact getPath_setPath_self _ _ _ _ hs2
  · rw [hG1, hG]
    exact getPath_setPath_frame _ _ _ _ _ hs1 (resolve_diverge_progress c1)
  · rw [hG2, hG]
    rw [getPath_setPath_frame _ _ _ _ _ hs2 (resolve_diverge_progress c2)]
    exact getPath_setPath_frame _ _ _ _ _ hs1 (resolve_diverge_progress c1)
  · intro c hc1 hc2
    rw [hG2, hG]
    rw [getPath_setPath_frame _ _ _ _ _ hs2 (resolve_diverge c2 c (Ne.symm hc2))]
    exact getPath_setPath_frame _ _ _ _ _ hs1 (resolve_diverge c1 c (Ne.symm hc1))

/-- Concrete run for the isolation witness: a fresh record. -/
def isoT0 : Table := (InitializeRecord [] "u" "a" 0).1

/-- First concrete metadata payload. -/
def isoD1 : JSValue := .obj [("codec", .str "h264")]

/-- Second concrete metadata payload. -/
def isoD2 : JSValue := .obj [("score", .num 5)]

/-- Table after the first concrete metadata write. -/
def isoT1 : Table :=
  ((updateMetadata isoT0 ("u", "a") .METADATA_TECHNICAL isoD1).getD ([], false)).1

/-- Table after the second concrete metadata write. -/
def isoT2 : Table :=
  ((updateMetadata isoT1 ("u", "a") .METADATA_QUALITY isoD2).getD ([], false)).1

/-- Witness for C2 at a concrete run: technical then quality. -/
theorem updateMetadata_category_isolation_check :
    (∃ m1, convertToMapAttribute isoD1 = some m1 ∧
      getPathT isoT2 ("u", "a") (resolvePath .METADATA_TECHNICAL) = some (.M m1)) ∧
    (∃ m2, convertToMapAttribute isoD2 = some m2 ∧
      getPathT isoT2 ("u", "a") (resolvePath .METADATA_QUALITY) = some (.M m2)) ∧
    getPathT isoT1 ("u", "a") ["progress"] = getPathT isoT0 ("u", "a") ["progress"] ∧
    getPathT isoT2 ("u", "a") ["progress"] = getPathT isoT0 ("u", "a") ["progress"] ∧
    (∀ c : MetadataPath, c ≠ .METADATA_TECHNICAL → c ≠ .METADATA_QUALITY →
      getPathT isoT2 ("u", "a") (resolvePath c) = getPathT isoT0 ("u", "a") (resolvePath c)) :=
  updateMetadata_category_isolation isoT0 ("u", "a") .METADATA_TECHNICAL .METADATA_QUALITY
    isoD1 isoD2 isoT1 isoT2 (by decide) (by rfl) (by rfl)

/-! ## C3: the encoder follows the spec's per-field rules -/

/-- The claim's null classification: `null`, `undefined`, or the literal
string sentinel "N/A". -/
def isNullSentinel : JSValue → Bool
  | .null => true
  | .undef => true
  | .str s => s = "N/A"
  | _ => false

mutual

/-- Written from the claim's words, independently of the source encoder: a
null-sentinel encodes as the null tag; a boolean as a boolean tag; a number as
a numeric tag holding the decimal string of the number; a structured value
(object, or array with its index-keyed fields) recurses into a nested-map
tag, an empty object giving a present empty map tag; any other value encodes
as a string tag holding its textual representation. -/
def specEncodeValue (v : JSValue) : AttrValue :=
  if isNullSentinel v then .NULL
  else
    match v with
    | .bool b => .BOOL b
    | .num n => .N (Int.repr n)
    | .obj fs => .M (specEncodeFields fs)
    | .arr es => .M (specEncodeElems 0 es)
    | .str s => .S s
    | .null => .NULL
    | .undef => .NULL

/-- Spec-side encoding of an object's fields, depth-first. -/
def specEncodeFields : List (String × JSValue) → List (String × AttrValue)
  | [] => []
  | (k, v) :: rest => (k, specEncodeValue v) :: specEncodeFields rest

/-- Spec-side encoding of an array's index-keyed fields. -/
def specEncodeElems : Nat → List JSValue → List (String × AttrValue)
  | _, [] => []
  | i, v :: rest => (Nat.repr i, specEncodeValue v) :: specEncodeElems (i + 1) rest

end

mutual

theorem convertValue_eq_spec (v : JSValue) : convertValue v = specEncodeValue v := by
  cases v with
  | null => rfl
  | undef => rfl
  | bool b => rfl
  | num n => rfl
  | str s =>
    by_cases h : s = "N/A" <;> simp [convertValue, specEncodeValue, isNullSentinel, h]
  | obj fs =>
    simp only [convertValue, specEncodeValue, isNullSentinel, Bool.false_eq_true,
      if_false]
    exact congrArg AttrValue.M (convertEntries_eq_spec fs)
  | arr es =>
    simp only [convertValue, specEncodeValue, isNullSentinel, Bool.false_eq_true,
      if_false]
    exact congrArg AttrValue.M (convertArr_eq_spec 0 es)

theorem convertEntries_eq_spec (fs : List (String × JSValue)) :
    convertEntries fs = specEncodeFields fs := by
  cases fs with
  | nil => rfl
  | cons kv rest =>
    obtain ⟨k, v⟩ := kv
    simp only [convertEntries, specEncodeFields]
    exact congrArg₂ (fun a b => (k, a) :: b) (convertValue_eq_spec v)
      (convertEntries_eq_spec rest)

theorem convertArr_eq_spec (i : Nat) (es : List JSValue) :
    convertArr i es = specEncodeElems i es := by
  cases es with
  | nil => rfl
  | cons v rest =>
    simp only [convertArr, specEncodeElems]
    exact congrArg₂ (fun a b => (Nat.repr i, a) :: b) (convertValue_eq_spec v)
      (convertArr_eq_spec (i + 1) rest)

end

/-- C3: for every object input, the encoder maps each field depth-first by
exactly the claim's rules (null/undefined/"N/A" give the null tag, booleans
the boolean tag, numbers the decimal-string numeric tag, nested structured
values the recursive nested-map tag with an empty object kept as a present
empty map, and everything else the string tag), i.e. it agrees with the
rule-by-rule encoder written from the claim's words. -/
theorem convertToMapAttribute_follows_rules :
    (∀ fs : List (String × JSValue),
      convertToMapAttribute (.obj fs) = some (specEncodeFields fs)) ∧
    (∀ v : JSValue, convertValue v = specEncodeValue v) := by
  constructor
  · intro fs
    simp only [convertToMapAttribute]
    exact congrArg some (convertEntries_eq_spec fs)
  · exact convertValue_eq_spec

/-! ## C4: totality of the encoder (corrected) -/

/-- Counterexample to C4 as stated: at top-level `null` (and `undefined`) the
encoder does NOT return a result — `Object.entries(null)` throws a TypeError,
modelled as `none`. -/
theorem convertToMapAttribute_top_null_throws :
    convertToMapAttribute .null = none ∧ convertToMapAttribute .undef = none :=
  ⟨rfl, rfl⟩

/-- C4 amended: the encoder is pure (it is a function) and terminates with a
result on every JSON-representable input EXCEPT top-level `null` or
`undefined`, where `Object.entries` raises a TypeError; scalars, arrays and
objects at the top level all return a result. -/
theorem convertToMapAttribute_total_off_null (v : JSValue)
    (h1 : v ≠ .null) (h2 : v ≠ .undef) :
    (convertToMapAttribute v).isSome = true := by
  cases v with
  | null => exact absurd rfl h1
  | undef => exact absurd rfl h2
  | bool b => rfl
  | num n => rfl
  | str s => rfl
  | arr es => rfl
  | obj fs => rfl

/-- Witness for the amended C4 at a concrete input. -/
theorem convertToMapAttribute_total_off_null_check :
    (JSValue.obj [("x", .num 3)] ≠ JSValue.null) ∧
    (JSValue.obj [("x", .num 3)] ≠ JSValue.undef) ∧
    (convertToMapAttribute (JSValue.obj [("x", .num 3)])).isSome = true :=
  ⟨fun h => JSValue.noConfusion h, fun h => JSValue.noConfusion h,
   convertToMapAttribute_total_off_null _ (fun h => JSValue.noConfusion h)
     (fun h => JSValue.noConfusion h)⟩

/-! ## C9: arrays become index-keyed nested maps, never a list tag -/

theorem convertArr_enumFrom (es : List JSValue) :
    ∀ i, convertArr i es =
      (es.enumFrom i).map (fun p => (Nat.repr p.1, convertValue p.2)) := by
  induction es with
  | nil => intro i; rfl
  | cons v rest ih =>
    intro i
    simp only [convertArr, List.enumFrom, List.map]
    exact congrArg _ (ih (i + 1))

/-- C9: a field holding an array encodes as a nested-map tag whose keys are
the decimal index strings "0", "1", ... of the elements, each element encoded
recursively; the encoding is never the wire format's list tag. -/
theorem arrays_encode_as_index_maps :
    (∀ es : List JSValue,
      convertValue (.arr es) =
        .M (es.enum.map (fun p => (Nat.repr p.1, convertValue p.2)))) ∧
    (∀ es : List JSValue, ∀ l : List AttrValue, convertValue (.arr es) ≠ .L l) := by
  have hmain : ∀ es : List JSValue,
      convertValue (.arr es) =
        .M (es.enum.map (fun p => (Nat.repr p.1, convertValue p.2))) := by
    intro es
    simp only [convertValue, List.enum]
    exact congrArg AttrValue.M (convertArr_enumFrom es 0)
  refine ⟨hmain, ?_⟩
  intro es l h
  rw [hmain es] at h
  exact AttrValue.noConfusion h

/-! ## C5: caller misuse (corrected) -/

theorem assocSet_lookupA_self (m : List (String × AttrValue)) (k : String) (v : AttrValue) :
    lookupA (assocSet m k v) k = some v := by
  rw [lookupA_assocSet]
  simp

/-- With an existing `progress` map attribute, the two-action progress write
always applies — for ANY field string `x`, enumerated stage or not. -/
theorem progress_two_actions_total (it : Item) (pm : List (String × AttrValue))
    (x : String) (av tv : AttrValue)
    (hp : lookupA it "progress" = some (.M pm)) :
    ∃ it2, applyActions it
      [(["progress", x], av), (["progress", "updatedAt"], tv)] = some it2 := by
  have h1 : setPath it ["progress", x] av =
      some (assocSet it "progress" (.M (assocSet pm x av))) := by
    simp [setPath, hp]
  have h2 : lookupA (assocSet it "progress" (.M (assocSet pm x av))) "progress" =
      some (.M (assocSet pm x av)) := assocSet_lookupA_self it "progress" _
  refine ⟨assocSet (assocSet it "progress" (.M (assocSet pm x av))) "progress"
    (.M (assocSet (assocSet pm x av) "updatedAt" tv)), ?_⟩
  simp [applyActions, setPath, hp, h2]

/-- The five category strings (the values of the `MetadataPath` enum). -/
def categoryStrings : List String :=
  ["validation.basic", "validation.stream", "metadata.technical",
   "metadata.quality", "metadata.content"]

/-- Concrete fresh record used by the misuse counterexample and witness. -/
def misuseT0 : Table := (InitializeRecord [] "u" "a" 0).1

/-- Counterexample to C5 as stated: `updateProgress` performs no stage
validation — called with the non-stage string "bogus" it is NOT rejected
before reaching the backing store; the request is issued, reports success,
and writes the field `progress.bogus` into the stored record. -/
theorem updateProgress_unknown_stage_reaches_store :
    (updateProgressRaw misuseT0 ("u", "a") "bogus" true 1).2 = true ∧
    getPathT (updateProgressRaw misuseT0 ("u", "a") "bogus" true 1).1 ("u", "a")
      ["progress", "bogus"] = some (.BOOL true) :=
  ⟨rfl, rfl⟩

/-- C5 amended: an unknown category passed to `updateMetadata` does fail
before any request — the registry lookup leaves the path `undefined` and the
command construction throws a TypeError (an error distinct from a backend
soft failure) — but an unknown stage passed to `updateProgress` is NOT
rejected: the operation issues the update request with the given stage string
(on any record with a `progress` map it reports backend success). -/
theorem caller_misuse_amended :
    (∀ c : String, c ∉ categoryStrings →
      ∀ (d : JSValue) (t : Table) (key : String × String),
        createUpdateCommandRaw c d = none ∧ updateMetadataRaw t key c d = none) ∧
    (∀ (st : String) (v : Bool) (now : Nat) (t : Table) (key : String × String)
        (it : Item) (pm : List (String × AttrValue)),
      lookupT t key = some it → lookupA it "progress" = some (.M pm) →
      (updateProgressRaw t key st v now).2 = true) := by
  constructor
  · intro c hc d t key
    have hup : UPDATE_PATHS c = none := by
      simp only [categoryStrings, List.mem_cons, List.not_mem_nil, or_false,
        not_or] at hc
      obtain ⟨h1, h2, h3, h4, h5⟩ := hc
      simp [UPDATE_PATHS, h1, h2, h3, h4, h5]
    constructor
    · simp [createUpdateCommandRaw, hup]
    · simp [updateMetadataRaw, createUpdateCommandRaw, hup]
  · intro st v now t key it pm hl hp
    obtain ⟨it2, hact⟩ :=
      progress_two_actions_total it pm st (.BOOL v) (.S (isoStr now)) hp
    simp [updateProgressRaw, updateItem, hl, hact]

/-- Witness for the amended C5: a non-category string is refused before any
request, and an arbitrary stage string goes through against a fresh record. -/
theorem caller_misuse_amended_check :
    ("bogus.category" ∉ categoryStrings) ∧
    createUpdateCommandRaw "bogus.category" (.obj []) = none ∧
    updateMetadataRaw [] ("u", "a") "bogus.category" (.obj []) = none ∧
    (updateProgressRaw misuseT0 ("u", "a") "anything" false 2).2 = true := by
  have hmem : "bogus.category" ∉ categoryStrings := by decide
  have h1 := (caller_misuse_amended.1 "bogus.category" hmem (.obj []) [] ("u", "a"))
  have h2 := caller_misuse_amended.2 "anything" false 2 misuseT0 ("u", "a")
    (initialItem "u" "a" 0)
    [ ("upload", .BOOL false), ("validation", .BOOL false), ("metadata", .BOOL false),
      ("gopCreation", .BOOL false), ("transcoding", .BOOL false),
      ("completion", .BOOL false), ("distribution", .BOOL false),
      ("updatedAt", .S (isoStr 0)), ("hasCriticalFailure", .BOOL false) ]
    rfl rfl
  exact ⟨hmem, h1.1, h1.2, h2⟩

/-! ## C7: updatedAt invariants across operation sequences -/

/-- One caller-visible operation on a fixed record, with its clock reading
(the `new Date()` evaluated inside the operation). -/
inductive Op where
  | initRec (now : Nat)
  | updMeta (c : MetadataPath) (d : JSValue)
  | updProg (s : ProcessingStage) (v : Bool) (now : Nat)
  | markFail (v : Bool) (now : Nat)

/-- The clock reading an operation stamps, when it stamps one. -/
def opTime : Op → Option Nat
  | .initRec n => some n
  | .updMeta _ _ => none
  | .updProg _ _ n => some n
  | .markFail _ n => some n

/-- The table after one operation; a thrown update (encoder TypeError) leaves
the table unchanged. -/
def applyOp (t : Table) (key : String × String) : Op → Table
  | .initRec n => (InitializeRecord t key.1 key.2 n).1
  | .updMeta c d =>
    match updateMetadata t key c d with
    | some r => r.1
    | none => t
  | .updProg s v n => (updateProgress t key s v n).1
  | .markFail v n => (markCriticalFailure t key v n).1

/-- The table after a sequence of operations. -/
def applyOps (t : Table) (key : String × String) : List Op → Table
  | [] => t
  | op :: rest => applyOps (applyOp t key op) key rest

/-- The record's stored `progress.updatedAt` is the rendering of clock
reading `t0`. -/
def UpdAt (t : Table) (key : String × String) (t0 : Nat) : Prop :=
  getPathT t key ["progress", "updatedAt"] = some (.S (isoStr t0))

/-- The operations' clock readings are ≥ the bound and non-decreasing along
the list (a monotone wall clock). -/
def ClockFrom : Nat → List Op → Prop
  | _, [] => True
  | t0, op :: rest =>
    match opTime op with
    | none => ClockFrom t0 rest
    | some n => t0 ≤ n ∧ ClockFrom n rest

theorem ClockFrom_mono (a b : Nat) (hab : a ≤ b) :
    ∀ l : List Op, ClockFrom b l → ClockFrom a l := by
  intro l
  induction l with
  | nil => intro _; trivial
  | cons op rest ih =>
    intro h
    unfold ClockFrom at h ⊢
    cases ho : opTime op with
    | none =>
      simp only [ho] at h ⊢
      exact ih h
    | some n =>
      simp only [ho] at h ⊢
      exact ⟨le_trans hab h.1, h.2⟩

/-- Unfolding a readable `updatedAt`: the record exists and its `progress`
attribute is a map holding the timestamp. -/
theorem UpdAt_elim (t : Table) (key : String × String) (t0 : Nat) (h : UpdAt t key t0) :
    ∃ it pm, lookupT t key = some it ∧ lookupA it "progress" = some (.M pm) ∧
      lookupA pm "updatedAt" = some (.S (isoStr t0)) := by
  unfold UpdAt getPathT at h
  split at h
  next it hl =>
    simp only [getPath] at h
    split at h
    next pm hp => exact ⟨it, pm, hl, hp, h⟩
    next => simp at h
  next => simp at h

theorem resolve_diverge_updAt (c : MetadataPath) :
    Diverge (resolvePath c) ["progress", "updatedAt"] := by
  cases c <;> decide

/-- `updateMetadata` (whether the backend reported success or not) never
changes a path diverging from the written category path. -/
theorem updateMetadata_frame (t : Table) (key : String × String) (c : MetadataPath)
    (d : JSValue) (q : List String) (hq : Diverge (resolvePath c) q)
    (r : Table × Bool) (h : updateMetadata t key c d = some r) :
    getPathT r.1 key q = getPathT t key q := by
  cases hm : convertToMapAttribute d with
  | none =>
    have hcmd : createUpdateCommandRaw (pathValue c) d = none := by
      simp [createUpdateCommandRaw, UPDATE_PATHS_pathValue, hm]
    simp [updateMetadata, updateMetadataRaw, hcmd] at h
  | some m =>
    have hcmd : createUpdateCommandRaw (pathValue c) d = some ⟨resolvePath c, .M m⟩ := by
      simp [createUpdateCommandRaw, UPDATE_PATHS_pathValue, hm]
    simp only [updateMetadata, updateMetadataRaw, hcmd, Option.some.injEq] at h
    have h1 : (updateItem t key [(resolvePath c, .M m)]).1 = r.1 := congrArg Prod.fst h
    rcases updateItem_fst_eq_or t key [(resolvePath c, .M m)] with h200 | hsame
    · have hupd : updateItem t key [(resolvePath c, .M m)] =
          ((updateItem t key [(resolvePath c, .M m)]).1,
           (updateItem t key [(resolvePath c, .M m)]).2) := rfl
      rw [h200] at hupd
      obtain ⟨it, it1, hl, hs, ht⟩ :=
        updateItem_one_success t key _ _ _ hupd
      rw [← h1, ht]
      simp only [getPathT, lookupT_tableSet, if_pos rfl, hl]
      exact getPath_setPath_frame _ _ _ _ _ hs hq
    · rw [← h1, hsame]

/-- One step of the updatedAt invariant: any single operation either leaves
the stamp alone or moves it to the operation's own clock reading. -/
theorem updAt_step (t : Table) (key : String × String) (t0 : Nat) (op : Op)
    (h : UpdAt t key t0) :
    ∃ t1, UpdAt (applyOp t key op) key t1 ∧ (t1 = t0 ∨ opTime op = some t1) := by
  obtain ⟨it, pm, hl, hp, _⟩ := UpdAt_elim t key t0 h
  cases op with
  | initRec n =>
    have hinit : (InitializeRecord t key.1 key.2 n).1 = t := by
      have hkey : ((key.1, key.2) : String × String) = key := rfl
      simp [InitializeRecord, putItemIfAbsent, hkey, hl]
    refine ⟨t0, ?_, Or.inl rfl⟩
    unfold UpdAt
    simpa [applyOp, hinit] using h
  | updMeta c d =>
    refine ⟨t0, ?_, Or.inl rfl⟩
    cases hr : updateMetadata t key c d with
    | none =>
      unfold UpdAt
      simp only [applyOp, hr]
      exact h
    | some r =>
      have hfr := updateMetadata_frame t key c d ["progress", "updatedAt"]
        (resolve_diverge_updAt c) r hr
      unfold UpdAt
      simp only [applyOp, hr]
      rw [hfr]
      exact h
  | updProg s v n =>
    refine ⟨n, ?_, Or.inr rfl⟩
    obtain ⟨it2, hact⟩ :=
      progress_two_actions_total it pm (stageValue s) (.BOOL v) (.S (isoStr n)) hp
    have hupd : updateItem t key
        [ (["progress", stageValue s], .BOOL v),
          (["progress", "updatedAt"], .S (isoStr n)) ] = (tableSet t key it2, 200) := by
      simp [updateItem, hl, hact]
    obtain ⟨it1, _, hs2⟩ := applyActions_two it _ _ _ _ it2 hact
    have happ : applyOp t key (.updProg s v n) = tableSet t key it2 := by
      simp [applyOp, updateProgress, updateProgressRaw, hupd]
    unfold UpdAt
    rw [happ]
    simp only [getPathT, lookupT_tableSet, if_pos rfl]
    exact getPath_setPath_self _ _ _ _ hs2
  | markFail v n =>
    refine ⟨n, ?_, Or.inr rfl⟩
    obtain ⟨it2, hact⟩ :=
      progress_two_actions_total it pm "hasCriticalFailure" (.BOOL v) (.S (isoStr n)) hp
    have hupd : updateItem t key
        [ (["progress", "hasCriticalFailure"], .BOOL v),
          (["progress", "updatedAt"], .S (isoStr n)) ] = (tableSet t key it2, 200) := by
      simp [updateItem, hl, hact]
    obtain ⟨it1, _, hs2⟩ := applyActions_two it _ _ _ _ it2 hact
    have happ : applyOp t key (.markFail v n) = tableSet t key it2 := by
      simp [applyOp, markCriticalFailure, hupd]
    unfold UpdAt
    rw [happ]
    simp only [getPathT, lookupT_tableSet, if_pos rfl]
    exact getPath_setPath_self _ _ _ _ hs2

/-- The trace form: under a monotone clock, the stamp never decreases. -/
theorem updAt_trace (ops : List Op) :
    ∀ (t : Table) (key : String × String) (t0 : Nat),
      UpdAt t key t0 → ClockFrom t0 ops →
      ∃ t1, t0 ≤ t1 ∧ UpdAt (applyOps t key ops) key t1 := by
  induction ops with
  | nil => intro t key t0 h _; exact ⟨t0, le_refl t0, h⟩
  | cons op rest ih =>
    intro t key t0 h hc
    obtain ⟨t1, h1, hcase⟩ := updAt_step t key t0 op h
    unfold ClockFrom at hc
    cases ho : opTime op with
    | none =>
      rw [ho] at hc
      rcases hcase with rfl | habs
      · exact ih (applyOp t key op) key t1 h1 hc
      · rw [ho] at habs; cases habs
    | some n =>
      rw [ho] at hc
      obtain ⟨hn, hcrest⟩ := hc
      rcases hcase with rfl | hsome
      · obtain ⟨t2, h2, hres⟩ :=
          ih (applyOp t key op) key t1 h1 (ClockFrom_mono t1 n hn rest hcrest)
        exact ⟨t2, h2, hres⟩
      · have ht1n : n = t1 := by rw [ho] at hsome; exact Option.some.inj hsome
        obtain ⟨t2, h2, hres⟩ :=
          ih (applyOp t key op) key t1 h1 (ht1n ▸ hcrest)
        exact ⟨t2, le_trans (ht1n ▸ hn) h2, hres⟩

/-- C7: `progress.updatedAt` is monotonically non-decreasing across every
sequence of operations under a monotone clock; it is refreshed (to the
operation's clock reading) by every successful `updateProgress` and
`markCriticalFailure`; it is never modified by `updateMetadata`; and
`markCriticalFailure` sets `progress.hasCriticalFailure` and the stamp
without touching any stage flag. -/
theorem progress_updatedAt_invariants :
    (∀ (ops : List Op) (t : Table) (key : String × String) (t0 : Nat),
      UpdAt t key t0 → ClockFrom t0 ops →
      ∃ t1, t0 ≤ t1 ∧ UpdAt (applyOps t key ops) key t1) ∧
    (∀ (t : Table) (key : String × String) (s : ProcessingStage) (v : Bool)
        (now : Nat) (t' : Table),
      updateProgress t key s v now = (t', true) →
      getPathT t' key ["progress", "updatedAt"] = some (.S (isoStr now))) ∧
    (∀ (t : Table) (key : String × String) (v : Bool) (now : Nat) (t' : Table),
      markCriticalFailure t key v now = (t', true) →
      getPathT t' key ["progress", "hasCriticalFailure"] = some (.BOOL v) ∧
      getPathT t' key ["progress", "updatedAt"] = some (.S (isoStr now)) ∧
      (∀ s : ProcessingStage,
        getPathT t' key ["progress", stageValue s] =
          getPathT t key ["progress", stageValue s])) ∧
    (∀ (t : Table) (key : String × String) (c : MetadataPath) (d : JSValue)
        (r : Table × Bool),
      updateMetadata t key c d = some r →
      getPathT r.1 key ["progress", "updatedAt"] =
        getPathT t key ["progress", "updatedAt"]) := by
  refine ⟨?_, ?_, ?_, ?_⟩
  · intro ops t key t0 h hc
    exact updAt_trace ops t key t0 h hc
  · intro t key s v now t' h
    unfold updateProgress updateProgressRaw at h
    have h200 := op_success_elim t key _ t' h
    exact (progress_update_effects t key (stageValue s) (.BOOL v) (.S (isoStr now)) t'
      (stageValue_ne_updatedAt s) h200).1
  · intro t key v now t' h
    unfold markCriticalFailure at h
    have h200 := op_success_elim t key _ t' h
    obtain ⟨ha, hb, hc, _, _⟩ :=
      progress_update_effects t key "hasCriticalFailure" (.BOOL v) (.S (isoStr now)) t'
        (by decide) h200
    exact ⟨hb, ha, fun s =>
      hc (stageValue s) (fun hv => stageValue_ne_hcf s hv) (stageValue_ne_updatedAt s)⟩
  · intro t key c d r h
    exact updateMetadata_frame t key c d ["progress", "updatedAt"]
      (resolve_diverge_updAt c) r h

/-- Concrete fresh record for the C7 witness. -/
def c7T0 : Table := (InitializeRecord [] "u" "a" 0).1

/-- Concrete operation sequence for the C7 witness. -/
def c7Ops : List Op := [.updProg .UPLOAD true 1, .markFail true 2]

/-- Table after the concrete progress write. -/
def c7T1 : Table := (updateProgress c7T0 ("u", "a") .UPLOAD true 1).1

/-- Table after the concrete failure mark. -/
def c7TF : Table := (markCriticalFailure c7T0 ("u", "a") true 2).1

/-- Result of the concrete metadata write. -/
def c7R : Table × Bool :=
  (updateMetadata c7T0 ("u", "a") .METADATA_TECHNICAL (.obj [])).getD ([], false)

/-- Witness for C7 at concrete runs of all four conjuncts. -/
theorem progress_updatedAt_invariants_check :
    (∃ t1, 0 ≤ t1 ∧ UpdAt (applyOps c7T0 ("u", "a") c7Ops) ("u", "a") t1) ∧
    getPathT c7T1 ("u", "a") ["progress", "updatedAt"] = some (.S (isoStr 1)) ∧
    ( getPathT c7TF ("u", "a") ["progress", "hasCriticalFailure"] = some (.BOOL true) ∧
      getPathT c7TF ("u", "a") ["progress", "updatedAt"] = some (.S (isoStr 2)) ∧
      (∀ s : ProcessingStage,
        getPathT c7TF ("u", "a") ["progress", stageValue s] =
          getPathT c7T0 ("u", "a") ["progress", stageValue s]) ) ∧
    getPathT c7R.1 ("u", "a") ["progress", "updatedAt"] =
      getPathT c7T0 ("u", "a") ["progress", "updatedAt"] := by
  refine ⟨?_, ?_, ?_, ?_⟩
  · exact progress_updatedAt_invariants.1 c7Ops c7T0 ("u", "a") 0 rfl
      (by show 0 ≤ 1 ∧ (1 ≤ 2 ∧ True); exact ⟨by omega, by omega, trivial⟩)
  · exact progress_updatedAt_invariants.2.1 c7T0 ("u", "a") .UPLOAD true 1 c7T1 rfl
  · exact progress_updatedAt_invariants.2.2.1 c7T0 ("u", "a") true 2 c7TF rfl
  · exact progress_updatedAt_invariants.2.2.2 c7T0 ("u", "a")
      .METADATA_TECHNICAL (.obj []) c7R rfl

/-! ## C10: UploadService parses its limit strings with radix 2 -/

/-- A binary digit: the only digits ECMAScript `parseInt` accepts at radix 2. -/
def isBinDigit (c : Char) : Bool := c = '0' || c = '1'

/-- Modelled from the ECMAScript builtin: `parseInt(s, 2)` reads the longest
leading run of binary digits and yields its base-2 value, or NaN (modelled
`none`) when the string starts with no binary digit.  (The builtin's leading
whitespace and sign skipping is not modelled; the configuration limit strings
this service receives carry neither.) -/
def parseIntBase2 (s : String) : Option Nat :=
  match s.toList.takeWhile isBinDigit with
  | [] => none
  | ds => some (ds.foldl (fun a c => 2 * a + (if c = '1' then 1 else 0)) 0)

/-- The `UploadService` state (the S3 client holds no model-relevant state). -/
structure UploadService where
  bucket : String
  region : String
  uploadSizeLimit : Option Nat
  uploadTimeLimit : Option Nat

/-- The source constructor: `parseInt(uploadSizeLimit, 2)` and
`parseInt(uploadTimeLimit, 2)`. -/
def UploadService.ofConfig (bucket region uploadSizeLimit uploadTimeLimit : String) :
    UploadService :=
  ⟨bucket, region, parseIntBase2 uploadSizeLimit, parseIntBase2 uploadTimeLimit⟩

/-- Semantic content of the `createPresignedPost` arguments built by
`generatePreSignedPost`: the content-length-range condition and the expiry. -/
structure PresignedPostParams where
  bucket : String
  key : String
  contentLengthMin : Nat
  contentLengthMax : Option Nat
  expires : Option Nat

/-- `generatePreSignedPost`; the object key is built from user, time and a
random UUID, so it is a parameter of the model. -/
def generatePreSignedPost (svc : UploadService) (key : String) : PresignedPostParams :=
  ⟨svc.bucket, key, 1, svc.uploadSizeLimit, svc.uploadTimeLimit⟩

/-- The positional base-2 value of a digit run, written from the claim's
words independently of the accumulator fold in the model. -/
def binValSpec : List Char → Nat
  | [] => 0
  | c :: cs => (if c = '1' then 1 else 0) * 2 ^ cs.length + binValSpec cs

theorem foldl_binVal (ds : List Char) :
    ∀ a : Nat, ds.foldl (fun a c => 2 * a + (if c = '1' then 1 else 0)) a =
      a * 2 ^ ds.length + binValSpec ds := by
  induction ds with
  | nil => intro a; simp [binValSpec]
  | cons c cs ih =>
    intro a
    simp only [List.foldl, binValSpec, List.length_cons]
    rw [ih]
    ring

theorem takeWhile_run (p : Char → Bool) (ds rest : List Char)
    (hds : ∀ c ∈ ds, p c = true)
    (hrest : ∀ c, rest.head? = some c → p c = false) :
    (ds ++ rest).takeWhile p = ds := by
  induction ds with
  | nil =>
    cases rest with
    | nil => rfl
    | cons r rs => simp [List.takeWhile_cons, hrest r rfl]
  | cons d ds' ih =>
    have hd : p d = true := hds d (List.mem_cons_self d ds')
    simp only [List.cons_append, List.takeWhile_cons, hd, if_true]
    rw [ih (fun c hc => hds c (List.mem_cons_of_mem d hc))]

/-- C10: the service's stored `uploadSizeLimit` and `uploadTimeLimit` equal
`parseInt` of the configuration strings with radix 2 — the base-2 value of
the longest leading run of binary digits, NaN (`none`) when the string starts
with no binary digit, so a decimal configuration value containing a digit
other than 0 or 1 is never read as a decimal limit — and every presigned post
uses those stored values as its content-length-range upper bound and its
Expires. -/
theorem upload_limits_parse_radix2 :
    (∀ b r ls lt : String,
      (UploadService.ofConfig b r ls lt).uploadSizeLimit = parseIntBase2 ls ∧
      (UploadService.ofConfig b r ls lt).uploadTimeLimit = parseIntBase2 lt) ∧
    (∀ ds rest : List Char, ds ≠ [] →
      (∀ c ∈ ds, isBinDigit c = true) →
      (∀ c, rest.head? = some c → isBinDigit c = false) →
      parseIntBase2 (String.mk (ds ++ rest)) = some (binValSpec ds)) ∧
    (∀ (s : String) (c : Char), s.toList.head? = some c → isBinDigit c = false →
      parseIntBase2 s = none) ∧
    (∀ (svc : UploadService) (key : String),
      (generatePreSignedPost svc key).contentLengthMax = svc.uploadSizeLimit ∧
      (generatePreSignedPost svc key).expires = svc.uploadTimeLimit) := by
  refine ⟨fun b r ls lt => ⟨rfl, rfl⟩, ?_, ?_, fun svc key => ⟨rfl, rfl⟩⟩
  · intro ds rest hne hds hrest
    have htl : (String.mk (ds ++ rest)).toList = ds ++ rest := rfl
    unfold parseIntBase2
    rw [htl, takeWhile_run isBinDigit ds rest hds hrest]
    cases ds with
    | nil => exact absurd rfl hne
    | cons d ds' =>
      show some (List.foldl (fun a c => 2 * a + if c = '1' then 1 else 0) 0 (d :: ds')) =
        some (binValSpec (d :: ds'))
      rw [foldl_binVal]
      simp
  · intro s c hh hc
    unfold parseIntBase2
    cases hs : s.toList with
    | nil => rfl
    | cons a l =>
      rw [hs] at hh
      have hac : a = c := by
        simp only [List.head?] at hh
        exact Option.some.inj hh
      simp [List.takeWhile_cons, hac, hc]

/-- Witness for C10 at concrete configuration strings: "52428800" (a decimal
size limit) parses to NaN under radix 2; "10" followed by the non-binary
digit "23" parses as binary 10. -/
theorem upload_limits_parse_radix2_check :
    (UploadService.ofConfig "b" "r" "52428800" "600").uploadSizeLimit =
      parseIntBase2 "52428800" ∧
    parseIntBase2 (String.mk (['1', '0'] ++ ['2', '3'])) =
      some (binValSpec ['1', '0']) ∧
    parseIntBase2 "52428800" = none ∧
    (generatePreSignedPost (UploadService.ofConfig "b" "r" "52428800" "600")
      "k").contentLengthMax =
      (UploadService.ofConfig "b" "r" "52428800" "600").uploadSizeLimit := by
  refine ⟨(upload_limits_parse_radix2.1 "b" "r" "52428800" "600").1, ?_, ?_,
    (upload_limits_parse_radix2.2.2.2 (UploadService.ofConfig "b" "r" "52428800" "600")
      "k").1⟩
  · exact upload_limits_parse_radix2.2.1 ['1', '0'] ['2', '3'] (by decide) (by decide)
      (by intro c hc; cases hc; decide)
  · exact upload_limits_parse_radix2.2.2.1 "52428800" '5' rfl (by decide)

end Playlet
